import Mathlib

/-!
# moon-day: cache-or-fetch and range collection

A shallow embedding of `main.go`: the cache key, the transactional
cache-or-fetch `getMoonDayInfoCache`, and the range loop `getInfo`.

Library calls (`time`, `fmt`, `encoding/json`, `bbolt`, the HTTP fetch) are
not part of the repository.  Pure formatting is modelled from the documented
behaviour of the Go standard library; the fetcher, the JSON codec and the
fallible storage operations are parameters collected in `Env`.
-/

namespace MoonDay

/-! ## Machine integers -/

/-- Smallest `int64`. -/
def minInt64 : Int := -9223372036854775808

/-- Largest `int64`. -/
def maxInt64 : Int := 9223372036854775807

/-- Two's-complement wrap of a mathematical integer into the `int64` range. -/
def wrap64 (x : Int) : Int := (x + 9223372036854775808) % 18446744073709551616 - 9223372036854775808

/-- Membership in the `int64` range. -/
def isInt64 (x : Int) : Prop := minInt64 ≤ x ∧ x ≤ maxInt64

instance (x : Int) : Decidable (isInt64 x) := by unfold isInt64; infer_instance

/-! ## Time -/

/-- A `time.Time`: an instant (nanoseconds since the Unix epoch) together with
the location it is displayed in, given as the UTC offset in seconds that is in
force at each Unix second. -/
structure Time where
  unixNano : Int
  loc : Int → Int

/-- Nanoseconds in `time.Hour`. -/
def hour : Int := 3600000000000

/-- The expression `time.Duration(i) * 24 * time.Hour` of `getInfo`, in `int64`
arithmetic: each multiplication wraps. -/
def dayDuration (i : Int) : Int := wrap64 (wrap64 (i * 24) * hour)

/-- The method `Time.Add`: the instant moves, the location stays. -/
def Time.Add (t : Time) (d : Int) : Time := ⟨t.unixNano + d, t.loc⟩

/-- Unix second of an instant (floor). -/
def Time.unixSec (t : Time) : Int := t.unixNano / 1000000000

/-- Number of the calendar day `t` falls on in its location, counted from
1970-01-01. -/
def Time.epochDay (t : Time) : Int := (t.unixSec + t.loc t.unixSec) / 86400

/-- Proleptic Gregorian date `(year, month, day)` of a day number counted from
1970-01-01. -/
def civilFromDays (z0 : Int) : Int × Nat × Nat :=
  let z := z0 + 719468
  let era := z / 146097
  let doe := (z - era * 146097).toNat
  let yoe := (doe - doe / 1460 + doe / 36524 - doe / 146096) / 365
  let doy := doe - (365 * yoe + yoe / 4 - yoe / 100)
  let mp := (5 * doy + 2) / 153
  let d := doy - (153 * mp + 2) / 5 + 1
  let m := if mp < 10 then mp + 3 else mp - 9
  let y := (yoe : Int) + era * 400
  (if m ≤ 2 then y + 1 else y, m, d)

/-- The method `Time.Date`: year, month and day of `t` in its location. -/
def Time.Date (t : Time) : Int × Nat × Nat := civilFromDays t.epochDay

/-! ## Formatting -/

/-- Decimal digits of a natural number, most significant first. -/
def natDigits (n : Nat) : List Char := Nat.toDigits 10 n

/-- The helper `appendInt` of package `time`: sign, zero padding up to `width`,
digits. -/
def appendInt (x : Int) (width : Nat) : List Char :=
  let ds := natDigits x.natAbs
  (if x < 0 then ['-'] else []) ++ List.replicate (width - ds.length) '0' ++ ds

/-- The verb `%d` of `fmt.Sprintf` on an integer. -/
def fmtInt (x : Int) : List Char := appendInt x 0

/-- The constant `outputDateFormat = "02.01.2006"` applied to a date: two-digit
day, two-digit month, four-digit year, separated by dots. -/
def formatOutputDate (ymd : Int × Nat × Nat) : List Char :=
  appendInt ymd.2.2 2 ++ '.' :: (appendInt ymd.2.1 2 ++ '.' :: appendInt ymd.1 4)

/-- The call `date.Format(outputDateFormat)`. -/
def Time.Format (t : Time) : List Char := formatOutputDate t.Date

/-- The cache key of `getMoonDayInfoCache`:
`fmt.Sprintf("%s-%d", date.Format(outputDateFormat), cityID)`. -/
def cacheKey (date : Time) (cityID : Int) : String :=
  String.mk (date.Format ++ '-' :: fmtInt cityID)

/-! ## Rows, store and environment -/

/-- One output row: the label and the number.  A Go `string` is a sequence of
bytes, valid UTF-8 or not; it is written here with one character per byte. -/
abbrev Row := List String

/-- The Go type `[][]string`: rows in table order (`nil` and the empty slice
both read as the empty list). -/
abbrev RowSet := List Row

/-- Stored values are byte strings. -/
abbrev Bytes := String

/-- Go `error` values. -/
abbrev Error := String

/-- Content of a bbolt bucket: the value under each key, if any. -/
abbrev Bucket := String → Option Bytes

/-- A bucket with no keys. -/
def Bucket.empty : Bucket := fun _ => none

/-- The method `Bucket.Put`: the value under `key` is replaced, other keys
keep theirs. -/
def Bucket.Put (b : Bucket) (key : String) (val : Bytes) : Bucket :=
  fun k => if k = key then some val else b k

/-- Observable state: the persisted bucket named "cache" (`none` while it
does not exist) and the history of calls made so far. -/
structure World where
  cache : Option Bucket
  calls : List (Time × Int × Bool)
  fetches : List (Time × Int)

/-- The value persisted under `key`, `none` when the bucket or the key is
absent. -/
def World.stored (w : World) (key : String) : Option Bytes :=
  match w.cache with
  | none => none
  | some b => b key

/-- Everything outside the repository a run depends on: the wall clock, the
remote page behind `getMoonDayInfo`, `encoding/json` on `[][]string`, and
whether each fallible bbolt operation fails.  Each may depend on the state
reached so far. -/
structure Env where
  clock : World → Time
  remote : World → Time → Int → Except Error RowSet
  marshal : RowSet → Except Error Bytes
  unmarshal : Bytes → RowSet × Option Error
  beginFault : World → Option Error
  createFault : World → Option Error
  putFault : World → String → Bytes → Option Error
  commitFault : World → Option Error

/-- Result of a Go function with named results `(rows, err)`, together with
the state it leaves. -/
structure Outcome where
  world : World
  out : RowSet
  err : Option Error

/-! ## The cache-or-fetch call -/

/-- The state once a call of `getMoonDayInfoCache` has been entered. -/
def World.logCall (w : World) (date : Time) (cityID : Int) (skipCache : Bool) : World :=
  ⟨w.cache, w.calls ++ [(date, cityID, skipCache)], w.fetches⟩

/-- The state once `getMoonDayInfo` has been called. -/
def World.logFetch (w : World) (date : Time) (cityID : Int) : World :=
  ⟨w.cache, w.calls, w.fetches ++ [(date, cityID)]⟩

/-- The state once a transaction that put `val` under `key` in bucket `b` has
been committed. -/
def World.commit (w : World) (b : Bucket) (key : String) (val : Bytes) : World :=
  ⟨some (b.Put key val), w.calls, w.fetches⟩

/-- The function `getMoonDayInfoCache`.  The deferred `tx.Rollback()` discards
the transaction on every path but the one that reaches `tx.Commit()`, so only
that path changes the persisted bucket. -/
def getMoonDayInfoCache (env : Env) (w : World) (date : Time) (cityID : Int)
    (skipCache : Bool) : Outcome :=
  let key := cacheKey date cityID
  let w1 := w.logCall date cityID skipCache
  match env.beginFault w1 with
  | some e => ⟨w1, [], some e⟩
  | none =>
    match env.createFault w1 with
    | some e => ⟨w1, [], some e⟩
    | none =>
      let b : Bucket := w.cache.getD Bucket.empty
      match (if skipCache then none else b key) with
      | some val =>
        let r := env.unmarshal val
        ⟨w1, r.1, r.2⟩
      | none =>
        let w2 := w1.logFetch date cityID
        match env.remote w1 date cityID with
        | .error e => ⟨w2, [], some e⟩
        | .ok out =>
          match env.marshal out with
          | .error e => ⟨w2, out, some e⟩
          | .ok val =>
            match env.putFault w2 key val with
            | some e => ⟨w2, out, some e⟩
            | none =>
              match env.commitFault w2 with
              | some e => ⟨w2, out, some e⟩
              | none => ⟨w2.commit b key val, out, none⟩

/-- An environment whose answers do not depend on the history: the page, and
the success of each storage operation, are the same whenever asked. -/
def Env.Stateless (env : Env) : Prop :=
  (∀ (w w' : World) (d : Time) (c : Int), env.remote w d c = env.remote w' d c) ∧
  (∀ w w' : World, env.beginFault w = env.beginFault w') ∧
  (∀ w w' : World, env.createFault w = env.createFault w') ∧
  (∀ (w w' : World) (k : String) (v : Bytes), env.putFault w k v = env.putFault w' k v) ∧
  (∀ w w' : World, env.commitFault w = env.commitFault w')

/-! ## The range loop -/

/-- The `for` loop of `getInfo` from counter value `i` on, `tableRows` being
the rows accumulated so far.  `none` means the fuel ran out before the loop
ended. -/
def getInfoLoop (env : Env) (ts : Time) (cityID daysAfter : Int) (skipCache : Bool) :
    Nat → Int → World → RowSet → Option Outcome
  | 0, _, _, _ => none
  | fuel + 1, i, w, tableRows =>
    if i ≤ daysAfter then
      let day := ts.Add (dayDuration i)
      let r := getMoonDayInfoCache env w day cityID skipCache
      match r.err with
      | some e => some ⟨r.world, [], some e⟩
      | none => getInfoLoop env ts cityID daysAfter skipCache fuel (wrap64 (i + 1)) r.world
          (tableRows ++ r.out)
    else some ⟨w, tableRows, none⟩

/-- The function `getInfo`: the clock is read once, then the loop runs from
`-daysBefore`. -/
def getInfo (env : Env) (fuel : Nat) (w : World) (cityID daysBefore daysAfter : Int)
    (skipCache : Bool) : Option Outcome :=
  getInfoLoop env (env.clock w) cityID daysAfter skipCache fuel (wrap64 (-daysBefore)) w []

/-! ## A concrete environment for evaluation -/

/-- Midnight UTC of 2024-10-27. -/
def sampleNow : Time := ⟨1729987200000000000, fun _ => 0⟩

/-- A store without the "cache" bucket and no history. -/
def freshWorld : World := ⟨none, [], []⟩

/-- A stand-in for `json.Marshal` on `[][]string`: brackets and commas, the
fields unquoted; the empty row set is `null`. -/
def stubMarshal (r : RowSet) : Except Error Bytes :=
  if r = [] then .ok "null"
  else .ok ("[" ++ ",".intercalate (r.map (fun row => "[" ++ ",".intercalate row ++ "]")) ++ "]")

/-- A stand-in for `json.Unmarshal`: it reads back the two values the examples
store and rejects everything else. -/
def stubUnmarshal (b : Bytes) : RowSet × Option Error :=
  if b = "null" then ([], none)
  else if b = "[[27.10.2024 label,N]]" then ([["27.10.2024 label", "N"]], none)
  else ([], some "invalid character")

/-- The page of the examples: one row a day, labelled with the day as
`getMoonDayInfo` labels its rows. -/
def stubPage (date : Time) : RowSet := [[String.mk date.Format ++ " label", "N"]]

/-- A working environment: the page has one row for every day, storage never
fails. -/
def stubEnv : Env where
  clock := fun _ => sampleNow
  remote := fun _ d _ => .ok (stubPage d)
  marshal := stubMarshal
  unmarshal := stubUnmarshal
  beginFault := fun _ => none
  createFault := fun _ => none
  putFault := fun _ _ _ => none
  commitFault := fun _ => none

/-! ## Reading rendered integers back -/

/-- Value of a string of decimal digits. -/
def decVal (cs : List Char) : Nat := cs.foldl (fun a c => 10 * a + (c.toNat - 48)) 0

/-- The unsigned part of `appendInt`: zero padding followed by the digits. -/
def paddedDigits (n width : Nat) : List Char :=
  List.replicate (width - (natDigits n).length) '0' ++ natDigits n

/-! ## The successive calls of a run -/

/-- The state in which iteration `n` (from 0) of the loop started at counter
`i` in state `w` makes its call, earlier iterations having gone on. -/
def worldAt (env : Env) (ts : Time) (cityID : Int) (skipCache : Bool) : Nat → Int → World → World
  | 0, _, w => w
  | n + 1, i, w =>
    worldAt env ts cityID skipCache n (i + 1)
      (getMoonDayInfoCache env w (ts.Add (dayDuration i)) cityID skipCache).world

/-- The call of `getMoonDayInfoCache` made by iteration `n` of that loop: the
one for offset `i + n`. -/
def callAt (env : Env) (ts : Time) (cityID : Int) (skipCache : Bool) (i : Int) (w : World)
    (n : Nat) : Outcome :=
  getMoonDayInfoCache env (worldAt env ts cityID skipCache n i w)
    (ts.Add (dayDuration (i + n))) cityID skipCache

/-- Rows of the first `n` calls, concatenated in call order. -/
def rowsUpTo (env : Env) (ts : Time) (cityID : Int) (skipCache : Bool) (i : Int) (w : World)
    (n : Nat) : RowSet :=
  (List.range n).flatMap (fun k => (callAt env ts cityID skipCache i w k).out)

/-- Number of offsets in the window `-daysBefore .. daysAfter`. -/
def windowSize (daysBefore daysAfter : Int) : Nat := (daysBefore + daysAfter + 1).toNat

/-! ## More environments and states for evaluation -/

/-- The environment `stubEnv` with a page whose second request times out. -/
def flakyEnv : Env :=
  { stubEnv with
    remote := fun w d _ => if w.fetches.length = 1 then .error "timeout" else .ok (stubPage d) }

/-- The environment `stubEnv` with a page that never answers. -/
def downEnv : Env := { stubEnv with remote := fun _ _ _ => .error "timeout" }

/-- A page whose label cell holds the byte `0xFF`, which is not valid UTF-8. -/
def rawPage : RowSet := [["27.10.2024 lab\xffel", "7"]]

/-- The rows of `rawPage` after `encoding/json` has coerced them to valid
UTF-8: the byte `0xFF` has become U+FFFD, the three bytes `EF BF BD`. -/
def coercedPage : RowSet := [["27.10.2024 lab\xef\xbf\xbdel", "7"]]

/-- The stand-in `stubMarshal` with the coercion `json.Marshal` applies to
strings that are not valid UTF-8, on `rawPage`. -/
def coercingMarshal (r : RowSet) : Except Error Bytes :=
  if r = rawPage then stubMarshal coercedPage else stubMarshal r

/-- The stand-in `stubUnmarshal`, reading back also what `coercingMarshal`
writes for `rawPage`. -/
def coercingUnmarshal (b : Bytes) : RowSet × Option Error :=
  if b = "[[27.10.2024 lab\xef\xbf\xbdel,7]]" then (coercedPage, none) else stubUnmarshal b

/-- The environment `stubEnv` with the page `rawPage` and the coercing
codec. -/
def rawEnv : Env :=
  { stubEnv with
    remote := fun _ _ _ => .ok rawPage
    marshal := coercingMarshal
    unmarshal := coercingUnmarshal }

/-- The instant `sampleNow` in a location that was at UTC+4 until 22:00 UTC
on 2014-10-25 and has been at UTC+3 since. -/
def moscowNow : Time :=
  ⟨1729987200000000000, fun s => if s < 1414274400 then 14400 else 10800⟩

/-- The environment `stubEnv` with the clock in that location. -/
def moscowEnv : Env := { stubEnv with clock := fun _ => moscowNow }

/-- A store whose entry for location 31 on 2024-10-27 is not JSON. -/
def corruptWorld : World := ⟨some (Bucket.empty.Put "27.10.2024-31" "garbage"), [], []⟩


/-- Half past midnight local time on 2024-10-27 in a location that leaves
summer time (UTC+2) for winter time (UTC+1) at 01:00 UTC that day. -/
def autumnNow : Time :=
  ⟨1729981800000000000, fun s => if s < 1729990800 then 7200 else 3600⟩


/-! ## Formatting lemmas -/

theorem digitChar_isDigit (d : Nat) (h : d < 10) : (Nat.digitChar d).isDigit = true := by
  interval_cases d <;> decide

theorem digitChar_val (d : Nat) (h : d < 10) : (Nat.digitChar d).toNat - 48 = d := by
  interval_cases d <;> decide

theorem decVal_snoc (cs : List Char) (c : Char) :
    decVal (cs ++ [c]) = 10 * decVal cs + (c.toNat - 48) := by
  simp [decVal, List.foldl_append]

theorem toDigitsCore_spec (fuel : Nat) : ∀ (n : Nat) (ds : List Char), n < fuel →
    ∃ pre, Nat.toDigitsCore 10 fuel n ds = pre ++ ds ∧ pre ≠ [] ∧
      (∀ c ∈ pre, c.isDigit = true) ∧ decVal pre = n := by
  induction fuel with
  | zero => intro n ds h; omega
  | succ fuel ih =>
    intro n ds h
    have hd : n % 10 < 10 := Nat.mod_lt _ (by decide)
    by_cases h0 : n / 10 = 0
    · refine ⟨[Nat.digitChar (n % 10)], ?_, by simp, ?_, ?_⟩
      · simp [Nat.toDigitsCore, h0]
      · intro c hc
        simp only [List.mem_singleton] at hc
        rw [hc]; exact digitChar_isDigit _ hd
      · have := decVal_snoc [] (Nat.digitChar (n % 10))
        simp only [List.nil_append] at this
        rw [this, digitChar_val _ hd]
        simp [decVal]; omega
    · obtain ⟨pre, hpre, _, hdig, hval⟩ := ih (n / 10) (Nat.digitChar (n % 10) :: ds) (by omega)
      refine ⟨pre ++ [Nat.digitChar (n % 10)], ?_, by simp, ?_, ?_⟩
      · simp [Nat.toDigitsCore, h0, hpre]
      · intro c hc
        rcases List.mem_append.1 hc with hc | hc
        · exact hdig c hc
        · simp only [List.mem_singleton] at hc
          rw [hc]; exact digitChar_isDigit _ hd
      · rw [decVal_snoc, hval, digitChar_val _ hd]; omega

theorem natDigits_spec (n : Nat) :
    natDigits n ≠ [] ∧ (∀ c ∈ natDigits n, c.isDigit = true) ∧ decVal (natDigits n) = n := by
  obtain ⟨pre, hpre, hne, hdig, hval⟩ := toDigitsCore_spec (n + 1) n [] (by omega)
  have : natDigits n = pre := by simpa [natDigits, Nat.toDigits] using hpre
  rw [this]; exact ⟨hne, hdig, hval⟩

theorem appendInt_eq (x : Int) (w : Nat) :
    appendInt x w = (if x < 0 then ['-'] else []) ++ paddedDigits x.natAbs w := by
  simp [appendInt, paddedDigits, List.append_assoc]

theorem decVal_zeros (k : Nat) (cs : List Char) :
    decVal (List.replicate k '0' ++ cs) = decVal cs := by
  induction k with
  | zero => simp
  | succ k ih =>
    have h : decVal (List.replicate (k + 1) '0' ++ cs)
        = List.foldl (fun a c => 10 * a + (c.toNat - 48)) 0 (List.replicate k '0' ++ cs) := by
      simp [decVal, List.replicate_succ]
    rw [h]; exact ih

theorem paddedDigits_spec (n w : Nat) :
    paddedDigits n w ≠ [] ∧ (∀ c ∈ paddedDigits n w, c.isDigit = true) ∧
      decVal (paddedDigits n w) = n := by
  obtain ⟨hne, hdig, hval⟩ := natDigits_spec n
  refine ⟨by simp [paddedDigits, hne], ?_, ?_⟩
  · intro c hc
    rcases List.mem_append.1 hc with hc | hc
    · rw [(List.mem_replicate.1 hc).2]; decide
    · exact hdig c hc
  · rw [paddedDigits, decVal_zeros, hval]

/-- Two lists that agree after a separator absent from both prefixes agree
part by part. -/
theorem split_at_sep {α : Type} (a : α) : ∀ (x₁ x₂ z₁ z₂ : List α),
    a ∉ x₁ → a ∉ x₂ → x₁ ++ a :: z₁ = x₂ ++ a :: z₂ → x₁ = x₂ ∧ z₁ = z₂ := by
  intro x₁
  induction x₁ with
  | nil =>
    intro x₂ z₁ z₂ _ h₂ h
    cases x₂ with
    | nil => simpa using h
    | cons b x₂ =>
      simp only [List.nil_append, List.cons_append, List.cons.injEq] at h
      exact absurd (h.1 ▸ List.mem_cons_self _ _) h₂
  | cons b x₁ ih =>
    intro x₂ z₁ z₂ h₁ h₂ h
    cases x₂ with
    | nil =>
      simp only [List.nil_append, List.cons_append, List.cons.injEq] at h
      exact absurd (h.1 ▸ List.mem_cons_self _ _) h₁
    | cons c x₂ =>
      simp only [List.cons_append, List.cons.injEq] at h
      obtain ⟨hx, hz⟩ := ih x₂ z₁ z₂ (fun hm => h₁ (List.mem_cons_of_mem _ hm))
        (fun hm => h₂ (List.mem_cons_of_mem _ hm)) h.2
      exact ⟨by rw [h.1, hx], hz⟩

theorem paddedDigits_sep_inj (c : Char) (hc : c.isDigit = false) (n m w : Nat)
    (r r' : List Char) (h : paddedDigits n w ++ c :: r = paddedDigits m w ++ c :: r') :
    n = m ∧ r = r' := by
  obtain ⟨_, hd₁, hv₁⟩ := paddedDigits_spec n w
  obtain ⟨_, hd₂, hv₂⟩ := paddedDigits_spec m w
  have hn : ∀ k, c ∉ paddedDigits k w := fun k hm => by
    have := (paddedDigits_spec k w).2.1 c hm
    rw [hc] at this; cases this
  obtain ⟨hx, hz⟩ := split_at_sep c _ _ _ _ (hn n) (hn m) h
  exact ⟨by rw [← hv₁, hx, hv₂], hz⟩

/-- A rendered integer followed by a non-digit separator determines both the
integer and what follows. -/
theorem appendInt_sep_inj (c : Char) (hc : c.isDigit = false) (x y : Int) (w : Nat)
    (r r' : List Char) (h : appendInt x w ++ c :: r = appendInt y w ++ c :: r') :
    x = y ∧ r = r' := by
  rw [appendInt_eq, appendInt_eq] at h
  have hhead : ∀ (k : Nat) (t t' : List Char),
      '-' :: t ≠ paddedDigits k w ++ t' := by
    intro k t t' he
    obtain ⟨hne, hd, _⟩ := paddedDigits_spec k w
    cases hp : paddedDigits k w with
    | nil => exact hne hp
    | cons a l =>
      rw [hp] at he hd
      simp only [List.cons_append, List.cons.injEq] at he
      have := hd a (List.mem_cons_self _ _)
      rw [← he.1] at this
      exact absurd this (by decide)
  by_cases hx : x < 0 <;> by_cases hy : y < 0
  · simp only [hx, hy, if_true, List.singleton_append, List.cons_append, List.cons.injEq,
      true_and] at h
    obtain ⟨hn, hr⟩ := paddedDigits_sep_inj c hc _ _ w r r' h
    exact ⟨by omega, hr⟩
  · simp only [hx, hy, if_true, if_false, List.singleton_append, List.cons_append,
      List.nil_append] at h
    exact absurd h (hhead _ _ _)
  · simp only [hx, hy, if_true, if_false, List.singleton_append, List.cons_append,
      List.nil_append] at h
    exact absurd h.symm (hhead _ _ _)
  · simp only [hx, hy, if_false, List.nil_append] at h
    obtain ⟨hn, hr⟩ := paddedDigits_sep_inj c hc _ _ w r r' h
    exact ⟨by omega, hr⟩

theorem appendInt_inj (x y : Int) (w : Nat) (h : appendInt x w = appendInt y w) : x = y := by
  have h' : appendInt x w ++ '.' :: [] = appendInt y w ++ '.' :: [] := by rw [h]
  exact (appendInt_sep_inj '.' (by decide) x y w [] [] h').1

theorem civilFromDays_bounds (z : Int) :
    1 ≤ (civilFromDays z).2.1 ∧ (civilFromDays z).2.1 ≤ 12 ∧
    1 ≤ (civilFromDays z).2.2 ∧ (civilFromDays z).2.2 ≤ 31 := by
  simp only [civilFromDays]
  have hdoe : ((z + 719468) - (z + 719468) / 146097 * 146097).toNat < 146097 := by omega
  generalize ((z + 719468) - (z + 719468) / 146097 * 146097).toNat = doe at hdoe ⊢
  split <;> omega

/-! ## The cache key -/

theorem formatOutputDate_sep_inj (a b : Int × Nat × Nat) (x y : Int)
    (h : formatOutputDate a ++ '-' :: fmtInt x = formatOutputDate b ++ '-' :: fmtInt y) :
    a = b ∧ x = y := by
  simp only [formatOutputDate, List.append_assoc, List.cons_append] at h
  obtain ⟨hd, h⟩ := appendInt_sep_inj '.' (by decide) _ _ 2 _ _ h
  obtain ⟨hm, h⟩ := appendInt_sep_inj '.' (by decide) _ _ 2 _ _ h
  obtain ⟨hy, h⟩ := appendInt_sep_inj '-' (by decide) _ _ 4 _ _ h
  have hl := appendInt_inj x y 0 h
  obtain ⟨y₁, m₁, d₁⟩ := a
  obtain ⟨y₂, m₂, d₂⟩ := b
  simp only [Nat.cast_inj] at hd hm
  simp only at hy
  exact ⟨by rw [hd, hm, hy], hl⟩

theorem cacheKey_eq_iff (d₁ d₂ : Time) (l₁ l₂ : Int) :
    cacheKey d₁ l₁ = cacheKey d₂ l₂ ↔ d₁.Date = d₂.Date ∧ l₁ = l₂ := by
  constructor
  · intro h
    simp only [cacheKey, Time.Format] at h
    exact formatOutputDate_sep_inj _ _ _ _ (congrArg String.data h)
  · rintro ⟨hd, hl⟩
    simp only [cacheKey, Time.Format, hd, hl]

theorem appendInt_two_length (n : Nat) (h : n < 100) : (appendInt (n : Int) 2).length = 2 := by
  interval_cases n <;> decide

/-- C7: the cache key is the two-digit day, a dot, the two-digit month, a dot,
the year padded to four digits, a hyphen and the decimal location id; two keys
are equal exactly when the dates have the same year, month and day and the
location ids are equal; two instants on the same calendar day give the same
key. -/
theorem cacheKey_unique_per_day_and_location :
    (∀ (d : Time) (l : Int), cacheKey d l = String.mk
        (appendInt d.Date.2.2 2 ++ '.' :: (appendInt d.Date.2.1 2 ++ '.' ::
          (appendInt d.Date.1 4 ++ '-' :: appendInt l 0)))) ∧
    (∀ d : Time, (appendInt d.Date.2.2 2).length = 2 ∧ (appendInt d.Date.2.1 2).length = 2 ∧
        4 ≤ (appendInt d.Date.1 4).length) ∧
    (∀ (d₁ d₂ : Time) (l₁ l₂ : Int),
        cacheKey d₁ l₁ = cacheKey d₂ l₂ ↔ d₁.Date = d₂.Date ∧ l₁ = l₂) ∧
    (∀ (d₁ d₂ : Time) (l : Int), d₁.epochDay = d₂.epochDay → cacheKey d₁ l = cacheKey d₂ l) := by
  refine ⟨?_, ?_, cacheKey_eq_iff, ?_⟩
  · intro d l
    simp [cacheKey, Time.Format, formatOutputDate, fmtInt, List.append_assoc]
  · intro d
    obtain ⟨hm₁, hm₂, hd₁, hd₂⟩ := civilFromDays_bounds d.epochDay
    refine ⟨appendInt_two_length _ (by unfold Time.Date; omega),
      appendInt_two_length _ (by unfold Time.Date; omega), ?_⟩
    simp only [appendInt, List.length_append, List.length_replicate]
    omega
  · intro d₁ d₂ l h
    exact (cacheKey_eq_iff d₁ d₂ l l).2 ⟨by simp only [Time.Date, h], rfl⟩

/-! ## The cache-or-fetch call: basic facts -/

theorem getD_empty_apply (w : World) (key : String) :
    (w.cache.getD Bucket.empty) key = w.stored key := by
  unfold World.stored
  cases w.cache <;> rfl

theorem stored_logCall (w : World) (d : Time) (c : Int) (s : Bool) (k : String) :
    (w.logCall d c s).stored k = w.stored k := rfl

theorem stored_logFetch (w : World) (d : Time) (c : Int) (k : String) :
    (w.logFetch d c).stored k = w.stored k := rfl

theorem stored_commit (w w' : World) (key : String) (val : Bytes) (k : String) :
    (w'.commit (w.cache.getD Bucket.empty) key val).stored k
      = if k = key then some val else w.stored k := by
  simp only [World.commit, World.stored, Bucket.Put]
  split
  · rfl
  · exact getD_empty_apply w k

/-- Whatever happens in a call, keys other than the call's own keep their
stored value. -/
theorem getMoonDayInfoCache_frame (env : Env) (w : World) (date : Time) (cityID : Int)
    (skipCache : Bool) (k : String) (hk : k ≠ cacheKey date cityID) :
    (getMoonDayInfoCache env w date cityID skipCache).world.stored k = w.stored k := by
  unfold getMoonDayInfoCache
  simp only
  repeat' split
  all_goals first
    | rfl
    | (rw [stored_commit]; simp [hk])

/-- C5: when a call gets as far as the fetcher (the transaction opened, and
the lookup was bypassed or missed) and the fetcher fails with `e`, the call
returns `e` with no rows, the fetcher was called once, and the persisted
bucket is exactly what it was, absent if it was absent. -/
theorem fetch_failure_leaves_store_untouched (env : Env) (w : World) (date : Time)
    (cityID : Int) (skipCache : Bool) (e : Error)
    (hbegin : env.beginFault (w.logCall date cityID skipCache) = none)
    (hcreate : env.createFault (w.logCall date cityID skipCache) = none)
    (hreach : skipCache = true ∨ w.stored (cacheKey date cityID) = none)
    (hfail : env.remote (w.logCall date cityID skipCache) date cityID = .error e) :
    (getMoonDayInfoCache env w date cityID skipCache).err = some e ∧
    (getMoonDayInfoCache env w date cityID skipCache).out = [] ∧
    (getMoonDayInfoCache env w date cityID skipCache).world.cache = w.cache ∧
    (getMoonDayInfoCache env w date cityID skipCache).world.fetches
      = w.fetches ++ [(date, cityID)] := by
  have hlook : (if skipCache = true then none
      else (w.cache.getD Bucket.empty) (cacheKey date cityID)) = none := by
    rcases hreach with h | h
    · simp [h]
    · simp [getD_empty_apply, h]
  simp only [getMoonDayInfoCache, hbegin, hcreate, hlook, hfail]
  exact ⟨trivial, trivial, rfl, rfl⟩

/-- C8: with a stored value that does not deserialize, a call without bypass
never invokes the fetcher and never changes the persisted bucket, and once
its transaction is open it returns the deserialization error; a call with
bypass that runs to the commit replaces the entry by the serialization of the
fetched rows. -/
theorem corrupted_entry_is_not_repaired (env : Env) (w : World) (date : Time) (cityID : Int)
    (val : Bytes) (e : Error)
    (hstored : w.stored (cacheKey date cityID) = some val)
    (hbad : (env.unmarshal val).2 = some e) :
    (getMoonDayInfoCache env w date cityID false).world.cache = w.cache ∧
    (getMoonDayInfoCache env w date cityID false).world.fetches = w.fetches ∧
    (env.beginFault (w.logCall date cityID false) = none →
      env.createFault (w.logCall date cityID false) = none →
      (getMoonDayInfoCache env w date cityID false).err = some e) ∧
    (∀ (r : RowSet) (v : Bytes),
      (getMoonDayInfoCache env w date cityID true).err = none →
      env.remote (w.logCall date cityID true) date cityID = .ok r →
      env.marshal r = .ok v →
      (getMoonDayInfoCache env w date cityID true).out = r ∧
      (getMoonDayInfoCache env w date cityID true).world.stored (cacheKey date cityID)
        = some v) := by
  have hlook : (w.cache.getD Bucket.empty) (cacheKey date cityID) = some val := by
    rw [getD_empty_apply, hstored]
  refine ⟨?_, ?_, ?_, ?_⟩
  · simp only [getMoonDayInfoCache, Bool.false_eq_true, if_false, hlook]
    repeat' split
    all_goals rfl
  · simp only [getMoonDayInfoCache, Bool.false_eq_true, if_false, hlook]
    repeat' split
    all_goals rfl
  · intro hb hc
    simp only [getMoonDayInfoCache, Bool.false_eq_true, if_false, hlook, hb, hc]
    exact hbad
  · intro r v herr hr hv
    revert herr
    simp only [getMoonDayInfoCache, if_true, hr, hv]
    repeat' split
    all_goals first
      | (intro h; cases h; done)
      | (intro _; exact ⟨rfl, by rw [stored_commit]; simp⟩)

/-- C2: a call with bypass whose transaction opens, whose fetch returns `r`,
and whose serialization, put and commit succeed, returns `r` without error,
has called the fetcher once, and leaves the persisted bucket mapping the
call's key to the serialization of `r` and every other key to what it held;
what was stored under the key before plays no part. -/
theorem bypass_refetches_and_overwrites (env : Env) (w : World) (date : Time) (cityID : Int)
    (r : RowSet) (v : Bytes)
    (hbegin : env.beginFault (w.logCall date cityID true) = none)
    (hcreate : env.createFault (w.logCall date cityID true) = none)
    (hfetch : env.remote (w.logCall date cityID true) date cityID = .ok r)
    (hser : env.marshal r = .ok v)
    (hput : env.putFault ((w.logCall date cityID true).logFetch date cityID)
      (cacheKey date cityID) v = none)
    (hcommit : env.commitFault ((w.logCall date cityID true).logFetch date cityID) = none) :
    (getMoonDayInfoCache env w date cityID true).out = r ∧
    (getMoonDayInfoCache env w date cityID true).err = none ∧
    (getMoonDayInfoCache env w date cityID true).world.fetches
      = w.fetches ++ [(date, cityID)] ∧
    (getMoonDayInfoCache env w date cityID true).world.stored (cacheKey date cityID)
      = some v ∧
    (∀ k, k ≠ cacheKey date cityID →
      (getMoonDayInfoCache env w date cityID true).world.stored k = w.stored k) := by
  refine ⟨?_, ?_, ?_, ?_, fun k hk => getMoonDayInfoCache_frame env w date cityID true k hk⟩
  all_goals simp only [getMoonDayInfoCache, if_true, hbegin, hcreate, hfetch, hser, hput, hcommit]
  · rfl
  · rw [stored_commit]; simp

/-- A successful call that missed the cache ran the whole write path: the
transaction opened, the rows serialized, and the put was committed. -/
theorem miss_success_inv (env : Env) (w : World) (date : Time) (cityID : Int) (r : RowSet)
    (hmiss : w.stored (cacheKey date cityID) = none)
    (hfetch : env.remote (w.logCall date cityID false) date cityID = .ok r)
    (hok : (getMoonDayInfoCache env w date cityID false).err = none) :
    ∃ v, env.marshal r = .ok v ∧
      getMoonDayInfoCache env w date cityID false
        = ⟨((w.logCall date cityID false).logFetch date cityID).commit
            (w.cache.getD Bucket.empty) (cacheKey date cityID) v, r, none⟩ := by
  have hlook : (w.cache.getD Bucket.empty) (cacheKey date cityID) = none := by
    rw [getD_empty_apply, hmiss]
  cases hb : env.beginFault (w.logCall date cityID false) with
  | some e => simp [getMoonDayInfoCache, hb] at hok
  | none =>
    cases hc : env.createFault (w.logCall date cityID false) with
    | some e => simp [getMoonDayInfoCache, hb, hc] at hok
    | none =>
      cases hm : env.marshal r with
      | error e => simp [getMoonDayInfoCache, hb, hc, hlook, hfetch, hm] at hok
      | ok v =>
        cases hp : env.putFault ((w.logCall date cityID false).logFetch date cityID)
          (cacheKey date cityID) v with
        | some e => simp [getMoonDayInfoCache, hb, hc, hlook, hfetch, hm, hp] at hok
        | none =>
          cases hk : env.commitFault ((w.logCall date cityID false).logFetch date cityID) with
          | some e => simp [getMoonDayInfoCache, hb, hc, hlook, hfetch, hm, hp, hk] at hok
          | none =>
            refine ⟨v, rfl, ?_⟩
            simp [getMoonDayInfoCache, hb, hc, hlook, hfetch, hm, hp, hk]

/-- C1 (as amended): starting from a store with no entry for the key, if the
first call without bypass succeeds with the fetcher returning `r`, then it
returns `r` and has called the fetcher once; a second call with the same
arguments does not call the fetcher and leaves the store as the first call
left it; and when its transaction opens and the stored serialization of `r`
reads back as `r`, it returns `r` as well, without error. -/
theorem second_call_served_from_cache (env : Env) (w : World) (date : Time) (cityID : Int)
    (r : RowSet)
    (hmiss : w.stored (cacheKey date cityID) = none)
    (hfetch : env.remote (w.logCall date cityID false) date cityID = .ok r)
    (hok : (getMoonDayInfoCache env w date cityID false).err = none) :
    (getMoonDayInfoCache env w date cityID false).out = r ∧
    (getMoonDayInfoCache env w date cityID false).world.fetches
      = w.fetches ++ [(date, cityID)] ∧
    (getMoonDayInfoCache env (getMoonDayInfoCache env w date cityID false).world
      date cityID false).world.fetches = w.fetches ++ [(date, cityID)] ∧
    (getMoonDayInfoCache env (getMoonDayInfoCache env w date cityID false).world
      date cityID false).world.cache
      = (getMoonDayInfoCache env w date cityID false).world.cache ∧
    ((∀ v, env.marshal r = .ok v → env.unmarshal v = (r, none)) →
      env.beginFault
        ((getMoonDayInfoCache env w date cityID false).world.logCall date cityID false) = none →
      env.createFault
        ((getMoonDayInfoCache env w date cityID false).world.logCall date cityID false) = none →
      (getMoonDayInfoCache env (getMoonDayInfoCache env w date cityID false).world
        date cityID false).out = r ∧
      (getMoonDayInfoCache env (getMoonDayInfoCache env w date cityID false).world
        date cityID false).err = none) := by
  obtain ⟨v, hv, hfirst⟩ := miss_success_inv env w date cityID r hmiss hfetch hok
  rw [hfirst]
  have hlook : ((((w.logCall date cityID false).logFetch date cityID).commit
      (w.cache.getD Bucket.empty) (cacheKey date cityID) v).cache.getD Bucket.empty)
      (cacheKey date cityID) = some v := by
    rw [getD_empty_apply, stored_commit]; simp
  refine ⟨rfl, rfl, ?_, ?_, ?_⟩
  · simp only [getMoonDayInfoCache, Bool.false_eq_true, if_false, hlook]
    repeat' split
    all_goals rfl
  · simp only [getMoonDayInfoCache, Bool.false_eq_true, if_false, hlook]
    repeat' split
    all_goals rfl
  · intro hcodec hbegin hcreate
    simp only [getMoonDayInfoCache, Bool.false_eq_true, if_false, hlook, hbegin, hcreate,
      hcodec v hv]
    exact ⟨trivial, trivial⟩

/-- With an environment that answers the same way whenever asked, what a call
without bypass returns depends on the state only through the value stored
under its key. -/
theorem getMoonDayInfoCache_result_congr (env : Env) (hs : env.Stateless) (w w' : World)
    (date : Time) (cityID : Int)
    (h : w'.stored (cacheKey date cityID) = w.stored (cacheKey date cityID)) :
    (getMoonDayInfoCache env w' date cityID false).out
      = (getMoonDayInfoCache env w date cityID false).out ∧
    (getMoonDayInfoCache env w' date cityID false).err
      = (getMoonDayInfoCache env w date cityID false).err := by
  obtain ⟨hr, hb, hc, hp, hk⟩ := hs
  have hlook : (w'.cache.getD Bucket.empty) (cacheKey date cityID)
      = (w.cache.getD Bucket.empty) (cacheKey date cityID) := by
    rw [getD_empty_apply, getD_empty_apply, h]
  simp only [getMoonDayInfoCache, Bool.false_eq_true, if_false, hlook,
    hb (w'.logCall date cityID false) (w.logCall date cityID false),
    hc (w'.logCall date cityID false) (w.logCall date cityID false),
    hr (w'.logCall date cityID false) (w.logCall date cityID false),
    hp ((w'.logCall date cityID false).logFetch date cityID)
      ((w.logCall date cityID false).logFetch date cityID),
    hk ((w'.logCall date cityID false).logFetch date cityID)
      ((w.logCall date cityID false).logFetch date cityID)]
  repeat' split
  all_goals exact ⟨rfl, rfl⟩

/-- C6: when two (date, location) pairs differ in calendar date or in
location, a call for the first, with or without bypass and whatever its
outcome, leaves the value stored for the second as it was; and with an
environment that answers the same way whenever asked, a following call without
bypass for the second returns the rows and error it would have returned
before. -/
theorem key_isolation (env : Env) (w : World) (date₁ date₂ : Time) (id₁ id₂ : Int)
    (skipCache : Bool) (hdiff : date₁.Date ≠ date₂.Date ∨ id₁ ≠ id₂) :
    (getMoonDayInfoCache env w date₁ id₁ skipCache).world.stored (cacheKey date₂ id₂)
      = w.stored (cacheKey date₂ id₂) ∧
    (env.Stateless →
      (getMoonDayInfoCache env (getMoonDayInfoCache env w date₁ id₁ skipCache).world
          date₂ id₂ false).out = (getMoonDayInfoCache env w date₂ id₂ false).out ∧
      (getMoonDayInfoCache env (getMoonDayInfoCache env w date₁ id₁ skipCache).world
          date₂ id₂ false).err = (getMoonDayInfoCache env w date₂ id₂ false).err) := by
  have hk : cacheKey date₂ id₂ ≠ cacheKey date₁ id₁ := by
    intro he
    obtain ⟨hd, hl⟩ := (cacheKey_eq_iff date₂ date₁ id₂ id₁).1 he
    rcases hdiff with h | h
    · exact h hd.symm
    · exact h hl.symm
  have hframe := getMoonDayInfoCache_frame env w date₁ id₁ skipCache _ hk
  exact ⟨hframe, fun hs => getMoonDayInfoCache_result_congr env hs w _ date₂ id₂ hframe⟩

/-! ## The range loop: unfolding -/

theorem wrap64_of_isInt64 (x : Int) (h : isInt64 x) : wrap64 x = x := by
  unfold isInt64 minInt64 maxInt64 at h
  unfold wrap64
  omega

theorem wrap64_isInt64 (x : Int) : isInt64 (wrap64 x) := by
  unfold isInt64 minInt64 maxInt64 wrap64
  omega

theorem callAt_succ (env : Env) (ts : Time) (cityID : Int) (skipCache : Bool) (i : Int)
    (w : World) (k : Nat) :
    callAt env ts cityID skipCache i w (k + 1)
      = callAt env ts cityID skipCache (i + 1)
          (getMoonDayInfoCache env w (ts.Add (dayDuration i)) cityID skipCache).world k := by
  have h : i + ((k + 1 : Nat) : Int) = i + 1 + (k : Int) := by push_cast; ring
  simp only [callAt, worldAt, h]

theorem callAt_zero (env : Env) (ts : Time) (cityID : Int) (skipCache : Bool) (i : Int)
    (w : World) :
    callAt env ts cityID skipCache i w 0
      = getMoonDayInfoCache env w (ts.Add (dayDuration i)) cityID skipCache := by
  simp [callAt, worldAt]

theorem rowsUpTo_succ (env : Env) (ts : Time) (cityID : Int) (skipCache : Bool) (i : Int)
    (w : World) (n : Nat) :
    rowsUpTo env ts cityID skipCache i w (n + 1)
      = (getMoonDayInfoCache env w (ts.Add (dayDuration i)) cityID skipCache).out
        ++ rowsUpTo env ts cityID skipCache (i + 1)
          (getMoonDayInfoCache env w (ts.Add (dayDuration i)) cityID skipCache).world n := by
  simp only [rowsUpTo, List.range_succ_eq_map, List.flatMap_cons, List.flatMap_map,
    callAt_zero]
  congr 1
  apply List.flatMap_congr
  intro k _
  simp only [Function.comp, Nat.succ_eq_add_one, callAt_succ]

/-- While the calls succeed and the counter stays inside the window, `n`
iterations of the loop consume `n` units of fuel, move the counter by `n`, and
append the rows of the `n` calls in order. -/
theorem getInfoLoop_iterate (env : Env) (ts : Time) (cityID daysAfter : Int)
    (skipCache : Bool) : ∀ (n fuel : Nat) (i : Int) (w : World) (acc : RowSet),
    isInt64 i → i + n ≤ maxInt64 → i + n ≤ daysAfter + 1 →
    (∀ k, k < n → (callAt env ts cityID skipCache i w k).err = none) →
    getInfoLoop env ts cityID daysAfter skipCache (fuel + n) i w acc
      = getInfoLoop env ts cityID daysAfter skipCache fuel (i + n)
          (worldAt env ts cityID skipCache n i w)
          (acc ++ rowsUpTo env ts cityID skipCache i w n) := by
  intro n
  induction n with
  | zero =>
    intro fuel i w acc _ _ _ _
    simp [worldAt, rowsUpTo]
  | succ n ih =>
    intro fuel i w acc hi hmax hle hok
    have h0 := hok 0 (Nat.succ_pos n)
    rw [callAt_zero] at h0
    have hcond : i ≤ daysAfter := by push_cast at hle; omega
    have hnext : wrap64 (i + 1) = i + 1 := by
      apply wrap64_of_isInt64
      unfold isInt64 minInt64 maxInt64 at *
      push_cast at hmax; omega
    have hstep : getInfoLoop env ts cityID daysAfter skipCache (fuel + (n + 1)) i w acc
        = getInfoLoop env ts cityID daysAfter skipCache (fuel + n) (i + 1)
            (getMoonDayInfoCache env w (ts.Add (dayDuration i)) cityID skipCache).world
            (acc ++ (getMoonDayInfoCache env w (ts.Add (dayDuration i)) cityID skipCache).out) := by
      rw [← Nat.add_assoc]
      simp only [getInfoLoop, hcond, if_true, h0, hnext]
    rw [hstep, ih fuel (i + 1) _ _ (by rw [← hnext]; exact wrap64_isInt64 _)
      (by push_cast at hmax ⊢; omega) (by push_cast at hle ⊢; omega)
      (fun k hk => by rw [← callAt_succ]; exact hok (k + 1) (Nat.succ_lt_succ hk))]
    have hi' : i + ((n + 1 : Nat) : Int) = i + 1 + (n : Int) := by push_cast; ring
    rw [rowsUpTo_succ, hi', List.append_assoc]
    rfl


theorem getMoonDayInfoCache_calls (env : Env) (w : World) (date : Time) (cityID : Int)
    (skipCache : Bool) :
    (getMoonDayInfoCache env w date cityID skipCache).world.calls
      = w.calls ++ [(date, cityID, skipCache)] := by
  unfold getMoonDayInfoCache
  simp only
  repeat' split
  all_goals rfl

theorem worldAt_calls (env : Env) (ts : Time) (cityID : Int) (skipCache : Bool) :
    ∀ (n : Nat) (i : Int) (w : World),
    (worldAt env ts cityID skipCache n i w).calls
      = w.calls ++ (List.range n).map
          (fun (k : Nat) => (ts.Add (dayDuration (i + (k : Int))), cityID, skipCache)) := by
  intro n
  induction n with
  | zero => intro i w; simp [worldAt]
  | succ n ih =>
    intro i w
    have h : ∀ k : Nat, i + 1 + (k : Int) = i + ((k + 1 : Nat) : Int) := by
      intro k; push_cast; ring
    simp only [worldAt, ih, getMoonDayInfoCache_calls, List.range_succ_eq_map, List.map_cons,
      List.map_map, List.append_assoc, List.singleton_append, Nat.cast_zero, add_zero, h]
    rfl

theorem getInfoLoop_exit (env : Env) (ts : Time) (cityID daysAfter : Int) (skipCache : Bool)
    (fuel : Nat) (i : Int) (w : World) (acc : RowSet) (h : daysAfter < i) :
    getInfoLoop env ts cityID daysAfter skipCache (fuel + 1) i w acc = some ⟨w, acc, none⟩ := by
  have : ¬ i ≤ daysAfter := by omega
  simp [getInfoLoop, this]

theorem getInfoLoop_fail (env : Env) (ts : Time) (cityID daysAfter : Int) (skipCache : Bool)
    (fuel : Nat) (i : Int) (w : World) (acc : RowSet) (e : Error) (h : i ≤ daysAfter)
    (herr : (getMoonDayInfoCache env w (ts.Add (dayDuration i)) cityID skipCache).err = some e) :
    getInfoLoop env ts cityID daysAfter skipCache (fuel + 1) i w acc
      = some ⟨(getMoonDayInfoCache env w (ts.Add (dayDuration i)) cityID skipCache).world,
          [], some e⟩ := by
  simp [getInfoLoop, h, herr]

theorem windowSize_cast (daysBefore daysAfter : Int) :
    ((windowSize daysBefore daysAfter : Nat) : Int) = max 0 (daysBefore + daysAfter + 1) := by
  unfold windowSize
  omega

/-- When the bounds keep the counter inside `int64` and every call succeeds,
the loop ends once the window is exhausted, with the rows of all calls. -/
theorem getInfo_success (env : Env) (w : World) (cityID daysBefore daysAfter : Int)
    (skipCache : Bool) (fuel : Nat)
    (hb : minInt64 < daysBefore ∧ daysBefore ≤ maxInt64)
    (ha : minInt64 ≤ daysAfter ∧ daysAfter < maxInt64)
    (hfuel : windowSize daysBefore daysAfter < fuel)
    (hok : ∀ k, k < windowSize daysBefore daysAfter →
      (callAt env (env.clock w) cityID skipCache (-daysBefore) w k).err = none) :
    getInfo env fuel w cityID daysBefore daysAfter skipCache
      = some ⟨worldAt env (env.clock w) cityID skipCache (windowSize daysBefore daysAfter)
            (-daysBefore) w,
          rowsUpTo env (env.clock w) cityID skipCache (-daysBefore) w
            (windowSize daysBefore daysAfter), none⟩ := by
  have hstart : isInt64 (-daysBefore) := by
    unfold isInt64 minInt64 maxInt64 at *; omega
  obtain ⟨m, rfl⟩ : ∃ m, fuel = (m + 1) + windowSize daysBefore daysAfter :=
    ⟨fuel - 1 - windowSize daysBefore daysAfter, by omega⟩
  have hsz := windowSize_cast daysBefore daysAfter
  unfold getInfo
  rw [wrap64_of_isInt64 _ hstart]
  by_cases hempty : daysBefore + daysAfter + 1 ≤ 0
  · have h0 : windowSize daysBefore daysAfter = 0 := by unfold windowSize; omega
    rw [h0, Nat.add_zero, getInfoLoop_exit _ _ _ _ _ _ _ _ _ (by omega)]
    simp [worldAt, rowsUpTo]
  · rw [getInfoLoop_iterate env _ cityID daysAfter skipCache _ (m + 1) _ w []
      hstart (by unfold maxInt64 at *; omega) (by omega) hok,
      getInfoLoop_exit _ _ _ _ _ _ _ _ _ (by omega)]
    simp


/-! ## The range loop: results -/

/-- C3 (as amended): for non-negative `daysBefore` and `daysAfter` with
`daysAfter` below the largest `int64`, when every per-day call succeeds,
`getInfo` returns, given enough fuel, without error the concatenation of the
rows of the calls for offsets `-daysBefore, ..., daysAfter` in ascending order,
each day's rows in the order its call returned them. -/
theorem getInfo_concatenates_in_order (env : Env) (w : World) (cityID daysBefore daysAfter : Int)
    (skipCache : Bool) (fuel : Nat)
    (hb : 0 ≤ daysBefore ∧ daysBefore ≤ maxInt64)
    (ha : 0 ≤ daysAfter ∧ daysAfter < maxInt64)
    (hfuel : windowSize daysBefore daysAfter < fuel)
    (hok : ∀ k, k < windowSize daysBefore daysAfter →
      (getMoonDayInfoCache env
        (worldAt env (env.clock w) cityID skipCache k (-daysBefore) w)
        ((env.clock w).Add (dayDuration (-daysBefore + k))) cityID skipCache).err = none) :
    ∃ o, getInfo env fuel w cityID daysBefore daysAfter skipCache = some o ∧
      o.err = none ∧
      o.out = (List.range (windowSize daysBefore daysAfter)).flatMap (fun k =>
        (getMoonDayInfoCache env
          (worldAt env (env.clock w) cityID skipCache k (-daysBefore) w)
          ((env.clock w).Add (dayDuration (-daysBefore + k))) cityID skipCache).out) ∧
      (windowSize daysBefore daysAfter : Int) = daysBefore + daysAfter + 1 := by
  refine ⟨_, getInfo_success env w cityID daysBefore daysAfter skipCache fuel
    ⟨by unfold minInt64; omega, hb.2⟩ ⟨by unfold minInt64; omega, ha.2⟩ hfuel hok, rfl, rfl, ?_⟩
  rw [windowSize_cast]; omega

/-- Witness for C3: one day before and one day after, one row per day, give
three rows in day order. -/
theorem getInfo_concatenates_in_order_witness :
    ∃ o, getInfo stubEnv 4 freshWorld 31 1 1 false = some o ∧ o.err = none ∧
      o.out = [["26.10.2024 label", "N"], ["27.10.2024 label", "N"], ["28.10.2024 label", "N"]] ∧
      o.world.calls.map (fun c => (cacheKey c.1 c.2.1).data)
        = ["26.10.2024-31".data, "27.10.2024-31".data, "28.10.2024-31".data] := by
  obtain ⟨o, ho, herr, hout, _⟩ := getInfo_concatenates_in_order stubEnv freshWorld 31 1 1 false 4
    (by decide) (by decide) (by decide) (by decide)
  refine ⟨o, ho, herr, ?_, ?_⟩
  · rw [hout]; decide
  · have h : getInfo stubEnv 4 freshWorld 31 1 1 false = some o := ho
    have hd : (getInfo stubEnv 4 freshWorld 31 1 1 false).map
        (fun o => o.world.calls.map (fun c => (cacheKey c.1 c.2.1).data))
        = some ["26.10.2024-31".data, "27.10.2024-31".data, "28.10.2024-31".data] := by decide
    rw [h] at hd
    simpa using hd


theorem stubEnv_bypass_ok (w : World) (d : Time) (c : Int) :
    (getMoonDayInfoCache stubEnv w d c true).err = none := by
  simp [getMoonDayInfoCache, stubEnv, stubMarshal, stubPage]

/-- With the upper bound at the largest `int64` the loop condition never
fails: as long as the calls succeed, no amount of fuel ends the loop. -/
theorem getInfoLoop_maxInt64_diverges (ts : Time) (cityID : Int) :
    ∀ (fuel : Nat) (i : Int) (w : World) (acc : RowSet), isInt64 i →
    getInfoLoop stubEnv ts cityID maxInt64 true fuel i w acc = none := by
  intro fuel
  induction fuel with
  | zero => intro i w acc _; rfl
  | succ fuel ih =>
    intro i w acc hi
    simp only [getInfoLoop, hi.2, if_true, stubEnv_bypass_ok]
    exact ih _ _ _ (wrap64_isInt64 _)

/-- Counterexample to C3 as stated: with `daysBefore = 0` and `daysAfter` the
largest `int64`, both non-negative, and every call succeeding, `getInfo` never
returns. -/
theorem getInfo_maxInt64_never_returns :
    ¬ ∃ fuel o, getInfo stubEnv fuel freshWorld 31 0 9223372036854775807 true = some o := by
  rintro ⟨fuel, o, h⟩
  have hd := getInfoLoop_maxInt64_diverges (stubEnv.clock freshWorld) 31 fuel (wrap64 (-0))
    freshWorld [] (wrap64_isInt64 _)
  unfold getInfo at h
  have hm : (9223372036854775807 : Int) = maxInt64 := rfl
  rw [hm, hd] at h
  cases h

/-- C10 (as amended): for `daysBefore` above the smallest `int64` and
`daysAfter` below the largest, when every call made succeeds, `getInfo`
returns, given enough fuel, without error after exactly
`max 0 (daysBefore + daysAfter + 1)` calls; when `-daysBefore > daysAfter` it
makes no call, leaves the state alone and returns no rows. -/
theorem getInfo_call_count (env : Env) (w : World) (cityID daysBefore daysAfter : Int)
    (skipCache : Bool) (fuel : Nat)
    (hb : minInt64 < daysBefore ∧ daysBefore ≤ maxInt64)
    (ha : minInt64 ≤ daysAfter ∧ daysAfter < maxInt64)
    (hfuel : windowSize daysBefore daysAfter < fuel)
    (hok : ∀ k, k < windowSize daysBefore daysAfter →
      (getMoonDayInfoCache env
        (worldAt env (env.clock w) cityID skipCache k (-daysBefore) w)
        ((env.clock w).Add (dayDuration (-daysBefore + k))) cityID skipCache).err = none) :
    ∃ o, getInfo env fuel w cityID daysBefore daysAfter skipCache = some o ∧
      o.err = none ∧
      (o.world.calls.length : Int) = w.calls.length + max 0 (daysBefore + daysAfter + 1) ∧
      (daysAfter < -daysBefore → o.world = w ∧ o.out = []) := by
  refine ⟨_, getInfo_success env w cityID daysBefore daysAfter skipCache fuel hb ha hfuel hok,
    rfl, ?_, ?_⟩
  · simp only [worldAt_calls, List.length_append, List.length_map, List.length_range,
      Nat.cast_add, windowSize_cast]
  · intro hlt
    have h0 : windowSize daysBefore daysAfter = 0 := by unfold windowSize; omega
    simp [h0, worldAt, rowsUpTo]

/-- Witness for C10: the default window makes three calls, and a window with
`daysBefore = -2`, `daysAfter = 0` makes none. -/
theorem getInfo_call_count_witness :
    (∃ o, getInfo stubEnv 4 freshWorld 31 1 1 false = some o ∧ o.err = none ∧
      (o.world.calls.length : Int) = 3) ∧
    (∃ o, getInfo stubEnv 1 freshWorld 31 (-2) 0 false = some o ∧ o.err = none ∧
      o.world.calls.length = 0 ∧ o.out = []) := by
  constructor
  · obtain ⟨o, ho, herr, hlen, _⟩ := getInfo_call_count stubEnv freshWorld 31 1 1 false 4
      (by decide) (by decide) (by decide) (by decide)
    exact ⟨o, ho, herr, by simpa [freshWorld] using hlen⟩
  · obtain ⟨o, ho, herr, _, hempty⟩ := getInfo_call_count stubEnv freshWorld 31 (-2) 0 false 1
      (by decide) (by decide) (by decide) (by decide)
    obtain ⟨hw, hout⟩ := hempty (by decide)
    exact ⟨o, ho, herr, by rw [hw]; rfl, hout⟩

/-- Counterexample to C10 as stated: with both bounds at the smallest `int64`
the sum `daysBefore + daysAfter + 1` is negative, yet `-daysBefore` wraps to
the smallest `int64` and one call is made. -/
theorem getInfo_minInt64_makes_a_call :
    (getInfo stubEnv 2 freshWorld 31 (-9223372036854775808) (-9223372036854775808) true).map
        (fun o => (o.err, o.world.calls.length)) = some (none, 1) ∧
    max 0 ((-9223372036854775808 : Int) + (-9223372036854775808) + 1) = 0 := by
  constructor
  · decide
  · decide


/-- C4: for `int64` bounds and an offset `wrap64 (-daysBefore) + j` inside the
window, if the calls for the earlier offsets succeed and the call for this one
fails with `e`, then `getInfo` returns, given fuel for `j + 1` iterations, the
error `e` with no rows at all, having made exactly the calls for the first
`j + 1` offsets and none for a later one. -/
theorem getInfo_fails_fast (env : Env) (w : World) (cityID daysBefore daysAfter : Int)
    (skipCache : Bool) (fuel j : Nat) (e : Error)
    (ha : isInt64 daysAfter)
    (hj : wrap64 (-daysBefore) + j ≤ daysAfter)
    (hfuel : j < fuel)
    (hok : ∀ k, k < j →
      (getMoonDayInfoCache env
        (worldAt env (env.clock w) cityID skipCache k (wrap64 (-daysBefore)) w)
        ((env.clock w).Add (dayDuration (wrap64 (-daysBefore) + k))) cityID skipCache).err
        = none)
    (hfail :
      (getMoonDayInfoCache env
        (worldAt env (env.clock w) cityID skipCache j (wrap64 (-daysBefore)) w)
        ((env.clock w).Add (dayDuration (wrap64 (-daysBefore) + j))) cityID skipCache).err
        = some e) :
    ∃ o, getInfo env fuel w cityID daysBefore daysAfter skipCache = some o ∧
      o.err = some e ∧ o.out = [] ∧
      o.world.calls = w.calls ++ (List.range (j + 1)).map (fun (k : Nat) =>
        ((env.clock w).Add (dayDuration (wrap64 (-daysBefore) + (k : Int))), cityID, skipCache)) := by
  obtain ⟨m, rfl⟩ : ∃ m, fuel = (m + 1) + j := ⟨fuel - 1 - j, by omega⟩
  have hrun : getInfo env (m + 1 + j) w cityID daysBefore daysAfter skipCache
      = some ⟨(getMoonDayInfoCache env
          (worldAt env (env.clock w) cityID skipCache j (wrap64 (-daysBefore)) w)
          ((env.clock w).Add (dayDuration (wrap64 (-daysBefore) + j))) cityID skipCache).world,
          [], some e⟩ := by
    unfold getInfo
    rw [getInfoLoop_iterate env _ cityID daysAfter skipCache j (m + 1) _ w []
      (wrap64_isInt64 _) (by have := ha.2; omega) (by omega) hok,
      getInfoLoop_fail _ _ _ _ _ _ _ _ _ e hj hfail]
  refine ⟨_, hrun, rfl, rfl, ?_⟩
  simp only [getMoonDayInfoCache_calls, worldAt_calls, List.range_succ, List.map_append,
      List.map_cons, List.map_nil, List.append_assoc]

/-- Witness for C4: in a three-day window whose middle day cannot be fetched,
`getInfo` returns that error and no rows, after two calls. -/
theorem getInfo_fails_fast_witness :
    ∃ o, getInfo flakyEnv 4 freshWorld 31 1 1 false = some o ∧
      o.err = some "timeout" ∧ o.out = [] ∧ o.world.calls.length = 2 := by
  obtain ⟨o, ho, herr, hout, hcalls⟩ := getInfo_fails_fast flakyEnv freshWorld 31 1 1 false 4 1
    "timeout" (by decide) (by decide) (by decide) (by decide) (by decide)
  exact ⟨o, ho, herr, hout, by rw [hcalls]; rfl⟩


/-! ## The days queried -/

theorem dayDuration_of_small (i : Int) (h : -106751 ≤ i ∧ i ≤ 106751) :
    dayDuration i = i * 86400000000000 := by
  have h1 : wrap64 (i * 24) = i * 24 := by unfold wrap64; omega
  unfold dayDuration
  rw [h1]
  unfold wrap64 hour
  omega

theorem unixSec_add_days (t : Time) (i : Int) :
    (t.Add (i * 86400000000000)).unixSec = t.unixSec + i * 86400 := by
  simp only [Time.unixSec, Time.Add]
  omega

theorem epochDay_add_days (t : Time) (off i : Int) (hnow : t.loc t.unixSec = off)
    (hthen : t.loc (t.unixSec + i * 86400) = off) :
    (t.Add (i * 86400000000000)).epochDay = t.epochDay + i := by
  have hl : (t.Add (i * 86400000000000)).loc = t.loc := rfl
  simp only [Time.epochDay, unixSec_add_days, hl, hthen, hnow]
  omega

/-- C9 (as amended): for `daysBefore` and `daysAfter` between 0 and 106751 (so
that the duration of every offset fits in 64 bits) and a clock whose location
has the same UTC offset at each of the instants queried, when every call
succeeds the dates `getInfo` passes to its successive calls are the single
clock reading plus `-daysBefore, ..., daysAfter` whole days, and their
calendar days are exactly `today - daysBefore, ..., today + daysAfter`, each
once, in increasing order. -/
theorem getInfo_queries_contiguous_days (env : Env) (w : World)
    (cityID daysBefore daysAfter off : Int) (skipCache : Bool) (fuel : Nat)
    (hb : 0 ≤ daysBefore ∧ daysBefore ≤ 106751)
    (ha : 0 ≤ daysAfter ∧ daysAfter ≤ 106751)
    (hloc : ∀ k : Nat, k < windowSize daysBefore daysAfter →
      (env.clock w).loc ((env.clock w).unixSec + (-daysBefore + (k : Int)) * 86400) = off)
    (hfuel : windowSize daysBefore daysAfter < fuel)
    (hok : ∀ k, k < windowSize daysBefore daysAfter →
      (getMoonDayInfoCache env
        (worldAt env (env.clock w) cityID skipCache k (-daysBefore) w)
        ((env.clock w).Add (dayDuration (-daysBefore + k))) cityID skipCache).err = none) :
    ∃ o, getInfo env fuel w cityID daysBefore daysAfter skipCache = some o ∧
      o.world.calls = w.calls ++ (List.range (windowSize daysBefore daysAfter)).map
        (fun (k : Nat) =>
          ((env.clock w).Add ((-daysBefore + (k : Int)) * 86400000000000), cityID, skipCache)) ∧
      (o.world.calls.drop w.calls.length).map (fun c => c.1.epochDay)
        = (List.range (windowSize daysBefore daysAfter)).map
            (fun (k : Nat) => (env.clock w).epochDay - daysBefore + (k : Int)) ∧
      (windowSize daysBefore daysAfter : Int) = daysBefore + daysAfter + 1 := by
  have hsz : (windowSize daysBefore daysAfter : Int) = daysBefore + daysAfter + 1 := by
    rw [windowSize_cast]; omega
  have hnow : (env.clock w).loc (env.clock w).unixSec = off := by
    have h := hloc daysBefore.toNat (by omega)
    have hz : (-daysBefore + ((daysBefore.toNat : Nat) : Int)) * 86400 = 0 := by omega
    rw [hz, add_zero] at h
    exact h
  have hcalls : (worldAt env (env.clock w) cityID skipCache (windowSize daysBefore daysAfter)
      (-daysBefore) w).calls
      = w.calls ++ (List.range (windowSize daysBefore daysAfter)).map (fun (k : Nat) =>
          ((env.clock w).Add ((-daysBefore + (k : Int)) * 86400000000000), cityID, skipCache)) := by
    rw [worldAt_calls]
    congr 1
    apply List.map_congr_left
    intro k hk
    have hk' := List.mem_range.1 hk
    rw [dayDuration_of_small _ ⟨by omega, by omega⟩]
  refine ⟨_, getInfo_success env w cityID daysBefore daysAfter skipCache fuel
    ⟨by unfold minInt64; omega, by unfold maxInt64; omega⟩
    ⟨by unfold minInt64; omega, by unfold maxInt64; omega⟩ hfuel hok, hcalls, ?_, hsz⟩
  simp only [hcalls, List.drop_left, List.map_map]
  apply List.map_congr_left
  intro k hk
  simp only [Function.comp, epochDay_add_days _ off _ hnow (hloc k (List.mem_range.1 hk))]
  ring

/-- Witness for C9: in a location whose offset last changed in 2014, the
default window queries yesterday, today and tomorrow. -/
theorem getInfo_queries_contiguous_days_witness :
    ∃ o, getInfo moscowEnv 4 freshWorld 31 1 1 false = some o ∧
      o.world.calls.map (fun c => c.1.epochDay) = [20022, 20023, 20024] := by
  obtain ⟨o, ho, _, hdays, _⟩ := getInfo_queries_contiguous_days moscowEnv freshWorld 31 1 1
    10800 false 4 (by decide) (by decide) (by decide) (by decide) (by decide)
  refine ⟨o, ho, ?_⟩
  have h : o.world.calls.map (fun c => c.1.epochDay)
      = (List.drop freshWorld.calls.length o.world.calls).map (fun c => c.1.epochDay) := rfl
  rw [h, hdays]
  decide

/-- Counterexample to C9 as stated: with `daysBefore = 0` and
`daysAfter = 106752` the duration of the last offset wraps to a negative
number of nanoseconds, and a day before today is queried. -/
theorem getInfo_wrapped_offset_leaves_window :
    ∃ o, getInfo stubEnv 106754 freshWorld 31 0 106752 true = some o ∧
      ∃ c ∈ o.world.calls, c.1.epochDay < (stubEnv.clock freshWorld).epochDay := by
  refine ⟨_, getInfo_success stubEnv freshWorld 31 0 106752 true 106754 (by decide) (by decide)
    (by decide) (fun k _ => stubEnv_bypass_ok _ _ _), ?_⟩
  refine ⟨((stubEnv.clock freshWorld).Add (dayDuration (-0 + ((106752 : Nat) : Int))), 31, true),
    ?_, by decide⟩
  rw [worldAt_calls]
  exact List.mem_append_right _ (List.mem_map.2 ⟨106752, List.mem_range.2 (by decide), rfl⟩)

/-- In a location whose UTC offset changes between two of the instants
queried, adding 24 hours can stay on the same calendar day: C9 as amended asks
for the same offset at each of them. -/
theorem next_offset_same_day_across_transition :
    (autumnNow.Add (dayDuration 1)).epochDay = autumnNow.epochDay := by
  decide


/-! ## Evaluation on the sample environments -/

/-- Witness for C1: on an empty store the first call fetches the day's row
and the second call returns it from the cache, with one fetch in all. -/
theorem second_call_served_from_cache_witness :
    (getMoonDayInfoCache stubEnv freshWorld sampleNow 31 false).out
      = [["27.10.2024 label", "N"]] ∧
    (getMoonDayInfoCache stubEnv
      (getMoonDayInfoCache stubEnv freshWorld sampleNow 31 false).world sampleNow 31 false).out
      = [["27.10.2024 label", "N"]] ∧
    (getMoonDayInfoCache stubEnv
      (getMoonDayInfoCache stubEnv freshWorld sampleNow 31 false).world sampleNow 31 false).err
      = none ∧
    (getMoonDayInfoCache stubEnv
      (getMoonDayInfoCache stubEnv freshWorld sampleNow 31 false).world sampleNow 31
      false).world.fetches.length = 1 := by
  have hpage : stubPage sampleNow = [["27.10.2024 label", "N"]] := by decide
  have hser : stubMarshal [["27.10.2024 label", "N"]] = .ok "[[27.10.2024 label,N]]" := by
    rfl
  obtain ⟨h₁, _, h₂, _, h₃⟩ := second_call_served_from_cache stubEnv freshWorld sampleNow 31
    [["27.10.2024 label", "N"]] rfl (congrArg Except.ok hpage) (by decide)
  obtain ⟨h₄, h₅⟩ := h₃
    (fun v hv => by
      have hv' : stubMarshal [["27.10.2024 label", "N"]] = .ok v := hv
      rw [hser] at hv'
      cases hv'
      decide)
    rfl rfl
  exact ⟨h₁, h₄, h₅, by rw [h₂]; rfl⟩

/-- Counterexample to C1 as stated: the page returns a label holding the byte
`0xFF`; the first call succeeds and returns the rows as fetched, the second
call succeeds from the cache and returns them with U+FFFD in place of that
byte, so the two calls do not return the same rows. -/
theorem second_call_returns_coerced_rows :
    freshWorld.stored (cacheKey sampleNow 31) = none ∧
    (getMoonDayInfoCache rawEnv freshWorld sampleNow 31 false).err = none ∧
    (getMoonDayInfoCache rawEnv freshWorld sampleNow 31 false).out = rawPage ∧
    (getMoonDayInfoCache rawEnv freshWorld sampleNow 31 false).world.fetches.length = 1 ∧
    (getMoonDayInfoCache rawEnv
      (getMoonDayInfoCache rawEnv freshWorld sampleNow 31 false).world sampleNow 31 false).err
      = none ∧
    (getMoonDayInfoCache rawEnv
      (getMoonDayInfoCache rawEnv freshWorld sampleNow 31 false).world sampleNow 31 false).out
      = coercedPage ∧
    coercedPage ≠ rawPage := by
  refine ⟨rfl, ?_, ?_, ?_, ?_, ?_, ?_⟩ <;> decide

/-- Witness for C2: a bypassing call overwrites a stored value. -/
theorem bypass_refetches_and_overwrites_witness :
    (getMoonDayInfoCache stubEnv corruptWorld sampleNow 31 true).out
      = [["27.10.2024 label", "N"]] ∧
    (getMoonDayInfoCache stubEnv corruptWorld sampleNow 31 true).err = none ∧
    corruptWorld.stored "27.10.2024-31" = some "garbage" ∧
    (getMoonDayInfoCache stubEnv corruptWorld sampleNow 31 true).world.stored "27.10.2024-31"
      = some "[[27.10.2024 label,N]]" := by
  have hpage : stubPage sampleNow = [["27.10.2024 label", "N"]] := by decide
  have hkey : cacheKey sampleNow 31 = "27.10.2024-31" := by decide
  obtain ⟨h₁, h₂, _, h₃, _⟩ := bypass_refetches_and_overwrites stubEnv corruptWorld sampleNow 31
    [["27.10.2024 label", "N"]] "[[27.10.2024 label,N]]" rfl rfl (congrArg Except.ok hpage)
    rfl rfl rfl
  rw [hkey] at h₃
  exact ⟨h₁, h₂, by decide, h₃⟩

/-- Witness for C5: a failed fetch on a store without the bucket returns the
error and leaves the bucket absent. -/
theorem fetch_failure_leaves_store_untouched_witness :
    (getMoonDayInfoCache downEnv freshWorld sampleNow 31 false).err = some "timeout" ∧
    (getMoonDayInfoCache downEnv freshWorld sampleNow 31 false).world.cache = none := by
  obtain ⟨h₁, _, h₂, _⟩ := fetch_failure_leaves_store_untouched downEnv freshWorld sampleNow 31
    false "timeout" rfl rfl (Or.inr rfl) rfl
  exact ⟨h₁, h₂⟩

/-- Witness for C6: a bypassing call for location 32 leaves the corrupted entry
of location 31 in place. -/
theorem key_isolation_witness :
    (getMoonDayInfoCache stubEnv corruptWorld sampleNow 32 true).world.stored
      (cacheKey sampleNow 31) = some "garbage" := by
  have h := (key_isolation stubEnv corruptWorld sampleNow sampleNow 32 31 true
    (Or.inr (by decide))).1
  rw [h]
  decide

/-- Witness for C8: the corrupted entry makes the call fail without a fetch
and stays in the store. -/
theorem corrupted_entry_is_not_repaired_witness :
    (getMoonDayInfoCache stubEnv corruptWorld sampleNow 31 false).err
      = some "invalid character" ∧
    (getMoonDayInfoCache stubEnv corruptWorld sampleNow 31 false).world.fetches = [] ∧
    (getMoonDayInfoCache stubEnv corruptWorld sampleNow 31 false).world.stored
      "27.10.2024-31" = some "garbage" := by
  obtain ⟨h₁, h₂, h₃, _⟩ := corrupted_entry_is_not_repaired stubEnv corruptWorld sampleNow 31
    "garbage" "invalid character" (by decide) (by decide)
  refine ⟨h₃ rfl rfl, h₂, ?_⟩
  have hs : ∀ w : World, w.cache = corruptWorld.cache →
      w.stored "27.10.2024-31" = some "garbage" := by
    intro w hw
    unfold World.stored
    rw [hw]
    decide
  exact hs _ h₁

end MoonDay
